import Mathlib

/-!
Shallow embedding of the ASF HyP3 tutorial notebooks.

The notebooks chain external services (catalog search, on-demand InSAR
processing, raster toolkit) around a small amount of original logic:
the SBAS pairing loop over a scene table, a bounding-box intersection
of raster corner coordinates, clipping of product rasters to a common
overlap, generation of a MintPy configuration file, and a neighbor
selection helper for baseline stacks.  The definitions below translate
that logic; the theorems verify the specified properties.
-/

/-- A row of the in-memory scene table (one record per scene of a
baseline stack): its scene name and temporal baseline in days. -/
structure Scene where
  sceneName : String
  temporalBaseline : Int
  deriving DecidableEq

/-- The `secondaries` selection of the SBAS loop: rows of `stack` whose
scene name differs from the reference and whose temporal baseline exceeds
the reference temporal baseline by an amount in (0, max_temporal_baseline]. -/
def sbas_secondaries (stack : List Scene) (reference : Scene)
    (max_temporal_baseline : Int) : List Scene :=
  stack.filter (fun s =>
    decide (s.sceneName ≠ reference.sceneName) &&
    decide (s.temporalBaseline - reference.temporalBaseline ≤ max_temporal_baseline) &&
    decide (0 < s.temporalBaseline - reference.temporalBaseline))

/-- All (reference, secondary) name pairs emitted by the SBAS loop, in
emission order (the loop walks the table in reverse row order). -/
def sbas_pairs_list (stack : List Scene) (max_temporal_baseline : Int) :
    List (String × String) :=
  (stack.reverse.map (fun reference =>
    (sbas_secondaries stack reference max_temporal_baseline).map
      (fun secondary => (reference.sceneName, secondary.sceneName)))).flatten

/-- The `sbas_pairs` set built by the loop: the emitted pairs accumulated
into a deduplicated unordered set. -/
def sbas_pairs (stack : List Scene) (max_temporal_baseline : Int) :
    Finset (String × String) :=
  (sbas_pairs_list stack max_temporal_baseline).toFinset

/-- Membership in the emitted pair set, unfolded to the loop's filter
conditions. -/
theorem mem_sbas_pairs {stack : List Scene} {m : Int} {p : String × String} :
    p ∈ sbas_pairs stack m ↔
      ∃ r ∈ stack, ∃ s ∈ stack,
        s.sceneName ≠ r.sceneName ∧
        s.temporalBaseline - r.temporalBaseline ≤ m ∧
        0 < s.temporalBaseline - r.temporalBaseline ∧
        p = (r.sceneName, s.sceneName) := by
  simp only [sbas_pairs, sbas_pairs_list, sbas_secondaries, List.mem_toFinset,
    List.mem_flatten, List.mem_map, List.mem_reverse]
  constructor
  · rintro ⟨_, ⟨r, hr, rfl⟩, hp⟩
    simp only [List.mem_map, List.mem_filter, Bool.and_eq_true, decide_eq_true_eq] at hp
    rcases hp with ⟨s, ⟨hs, hcond⟩, rfl⟩
    exact ⟨r, hr, s, hs, hcond.1.1, hcond.1.2, hcond.2, rfl⟩
  · rintro ⟨r, hr, s, hs, h1, h2, h3, rfl⟩
    refine ⟨_, ⟨r, hr, rfl⟩, ?_⟩
    simp only [List.mem_map, List.mem_filter, Bool.and_eq_true, decide_eq_true_eq]
    exact ⟨s, ⟨hs, ⟨h1, h2⟩, h3⟩, rfl⟩

/-- The concrete scenario table of the spec: baselines A:0, B:10, C:20, D:50. -/
def demo_stack : List Scene :=
  [⟨"A", 0⟩, ⟨"B", 10⟩, ⟨"C", 20⟩, ⟨"D", 50⟩]

/-- C1: soundness of the SBAS pairing heuristic.  Every pair in the emitted
set names a reference row and a secondary row of the table whose temporal
baselines differ by an amount in (0, max_temporal_baseline], the two names
differ, and the set holds no duplicate pairs. -/
theorem sbas_pairs_sound (stack : List Scene) (max_temporal_baseline : Int) :
    (∀ p ∈ sbas_pairs stack max_temporal_baseline,
      ∃ r ∈ stack, ∃ s ∈ stack,
        p.1 = r.sceneName ∧ p.2 = s.sceneName ∧
        0 < s.temporalBaseline - r.temporalBaseline ∧
        s.temporalBaseline - r.temporalBaseline ≤ max_temporal_baseline ∧
        p.1 ≠ p.2) ∧
    (sbas_pairs stack max_temporal_baseline).val.Nodup := by
  refine ⟨?_, (sbas_pairs stack max_temporal_baseline).nodup⟩
  intro p hp
  rcases mem_sbas_pairs.mp hp with ⟨r, hr, s, hs, h1, h2, h3, rfl⟩
  exact ⟨r, hr, s, hs, rfl, rfl, h3, h2, h1.symm⟩

/-- Witness for C1 at the concrete scenario table and the pair (A, B). -/
theorem sbas_pairs_sound_witness :
    ∃ r ∈ demo_stack, ∃ s ∈ demo_stack,
      (("A", "B") : String × String).1 = r.sceneName ∧
      (("A", "B") : String × String).2 = s.sceneName ∧
      0 < s.temporalBaseline - r.temporalBaseline ∧
      s.temporalBaseline - r.temporalBaseline ≤ 24 ∧
      (("A", "B") : String × String).1 ≠ (("A", "B") : String × String).2 :=
  (sbas_pairs_sound demo_stack 24).1 ("A", "B") (by decide)

/-- C2: completeness of the SBAS pairing heuristic.  For each reference row
of the table, the emitted set contains a pair with every other row whose
temporal baseline exceeds the reference temporal baseline by an amount in
(0, max_temporal_baseline]. -/
theorem sbas_pairs_complete (stack : List Scene) (max_temporal_baseline : Int)
    (r s : Scene) (hr : r ∈ stack) (hs : s ∈ stack)
    (hname : s.sceneName ≠ r.sceneName)
    (hpos : 0 < s.temporalBaseline - r.temporalBaseline)
    (hle : s.temporalBaseline - r.temporalBaseline ≤ max_temporal_baseline) :
    (r.sceneName, s.sceneName) ∈ sbas_pairs stack max_temporal_baseline :=
  mem_sbas_pairs.mpr ⟨r, hr, s, hs, hname, hle, hpos, rfl⟩

/-- Witness for C2 at the concrete scenario table: rows A and B yield (A, B). -/
theorem sbas_pairs_complete_witness :
    ((⟨"A", 0⟩ : Scene).sceneName, (⟨"B", 10⟩ : Scene).sceneName) ∈
      sbas_pairs demo_stack 24 :=
  sbas_pairs_complete demo_stack 24 ⟨"A", 0⟩ ⟨"B", 10⟩ (by decide) (by decide)
    (by decide) (by decide) (by decide)

/-- C3: at the table with baselines A:0, B:10, C:20, D:50 and
max_temporal_baseline = 24, the loop produces exactly the set
\x7b(A,B), (A,C), (B,C)\x7d, and none of (A,D), (B,D), (C,D) are emitted. -/
theorem sbas_pairs_demo_scenario :
    sbas_pairs demo_stack 24 = {("A", "B"), ("A", "C"), ("B", "C")} ∧
    ("A", "D") ∉ sbas_pairs demo_stack 24 ∧
    ("B", "D") ∉ sbas_pairs demo_stack 24 ∧
    ("C", "D") ∉ sbas_pairs demo_stack 24 := by
  decide

/-- A scene table in which two rows share a scene name. -/
def dup_name_stack : List Scene :=
  [⟨"X", 0⟩, ⟨"Y", 5⟩, ⟨"X", 10⟩]

/-- C9 counterexample: on a table where two rows share the scene name X
(baselines 0 and 10) and Y has baseline 5, the loop emits both (X, Y)
(from the X row at 0) and (Y, X) (from the X row at 10), so the pair set
contains both orientations of the same two names. -/
theorem sbas_pairs_orientation_cex :
    ("X", "Y") ∈ sbas_pairs dup_name_stack 24 ∧
    ("Y", "X") ∈ sbas_pairs dup_name_stack 24 := by
  decide

/-- C9 (amended): when the scene names of the table are pairwise distinct,
every emitted pair points from the strictly earlier temporal baseline to the
strictly later one, and the set never contains both orientations of a pair. -/
theorem sbas_pairs_orientation (stack : List Scene) (max_temporal_baseline : Int)
    (hnames : (stack.map Scene.sceneName).Nodup) :
    (∀ p ∈ sbas_pairs stack max_temporal_baseline, ∀ r ∈ stack, ∀ s ∈ stack,
        r.sceneName = p.1 → s.sceneName = p.2 →
        r.temporalBaseline < s.temporalBaseline) ∧
    (∀ a b, (a, b) ∈ sbas_pairs stack max_temporal_baseline →
        (b, a) ∉ sbas_pairs stack max_temporal_baseline) := by
  have huniq : ∀ x ∈ stack, ∀ y ∈ stack, x.sceneName = y.sceneName → x = y :=
    fun x hx y hy h => List.inj_on_of_nodup_map hnames hx hy h
  constructor
  · intro p hp r hr s hs hr1 hs1
    rcases mem_sbas_pairs.mp hp with ⟨r0, hr0, s0, hs0, h1, h2, h3, hpe⟩
    subst hpe
    have her : r = r0 := huniq r hr r0 hr0 hr1
    have hes : s = s0 := huniq s hs s0 hs0 hs1
    subst her
    subst hes
    omega
  · intro a b hab hba
    rcases mem_sbas_pairs.mp hab with ⟨r, hr, s, hs, _, _, h3, he⟩
    rcases mem_sbas_pairs.mp hba with ⟨r', hr', s', hs', _, _, h3', he'⟩
    rw [Prod.mk.injEq] at he he'
    have h1 : r' = s := huniq r' hr' s hs (by rw [← he.2, ← he'.1])
    have h2 : s' = r := huniq s' hs' r hr (by rw [← he.1, ← he'.2])
    subst h1
    subst h2
    omega

/-- Witness for the amended C9 at the concrete scenario table: the reverse
pair (B, A) is absent. -/
theorem sbas_pairs_orientation_witness :
    ("B", "A") ∉ sbas_pairs demo_stack 24 :=
  (sbas_pairs_orientation demo_stack 24 (by decide)).2 "A" "B" (by decide)

/-- Corner coordinates of one raster, as read from its metadata: the
upper-left and lower-right corner x and y values. -/
structure Corners where
  upperLeftX : ℚ
  upperLeftY : ℚ
  lowerRightX : ℚ
  lowerRightY : ℚ
  deriving DecidableEq

/-- Maximum of a nonempty sequence, as the Python builtin computes it:
a left fold of the binary max over the remaining values, seeded with the
first value. -/
def foldlMax (a : ℚ) (l : List ℚ) : ℚ := l.foldl max a

/-- Minimum of a nonempty sequence, as the Python builtin computes it. -/
def foldlMin (a : ℚ) (l : List ℚ) : ℚ := l.foldl min a

/-- get_common_overlap: from each raster's corner coordinates, return
[ulx, uly, lrx, lry] with ulx the max of the upper-left x values, uly the
min of the upper-left y values, lrx the min of the lower-right x values and
lry the max of the lower-right y values.  On an empty file list the max of
an empty sequence fails, modelled as none.  (Reading the corner coordinates
from the files is done by the external raster library; the embedding takes
the corner records directly.) -/
def get_common_overlap (corners : List Corners) : Option (List ℚ) :=
  match corners with
  | [] => none
  | c :: rest =>
      some [foldlMax c.upperLeftX (rest.map Corners.upperLeftX),
            foldlMin c.upperLeftY (rest.map Corners.upperLeftY),
            foldlMin c.lowerRightX (rest.map Corners.lowerRightX),
            foldlMax c.lowerRightY (rest.map Corners.lowerRightY)]

theorem le_foldlMax : ∀ (l : List ℚ) (a : ℚ), a ≤ foldlMax a l
  | [], a => le_refl a
  | b :: t, a => le_trans (le_max_left a b) (le_foldlMax t (max a b))

theorem foldlMin_le : ∀ (l : List ℚ) (a : ℚ), foldlMin a l ≤ a
  | [], a => le_refl a
  | b :: t, a => le_trans (foldlMin_le t (min a b)) (min_le_left a b)

theorem foldlMax_le_of_mem : ∀ (l : List ℚ) (a b : ℚ), b ∈ l → b ≤ foldlMax a l := by
  intro l
  induction l with
  | nil => intro a b hb; cases hb
  | cons c t ih =>
      intro a b hb
      rcases List.mem_cons.mp hb with rfl | hb
      · exact le_trans (le_max_right a b) (le_foldlMax t (max a b))
      · exact ih (max a c) b hb

theorem foldlMin_le_of_mem : ∀ (l : List ℚ) (a b : ℚ), b ∈ l → foldlMin a l ≤ b := by
  intro l
  induction l with
  | nil => intro a b hb; cases hb
  | cons c t ih =>
      intro a b hb
      rcases List.mem_cons.mp hb with rfl | hb
      · exact le_trans (foldlMin_le t (min a b)) (min_le_right a b)
      · exact ih (min a c) b hb

theorem foldlMax_cases : ∀ (l : List ℚ) (a : ℚ), foldlMax a l = a ∨ foldlMax a l ∈ l := by
  intro l
  induction l with
  | nil => intro a; exact Or.inl rfl
  | cons c t ih =>
      intro a
      rcases ih (max a c) with h | h
      · rcases le_total a c with hac | hac
        · right
          rw [show foldlMax a (c :: t) = foldlMax (max a c) t from rfl, h,
            max_eq_right hac]
          exact List.mem_cons_self c t
        · left
          rw [show foldlMax a (c :: t) = foldlMax (max a c) t from rfl, h,
            max_eq_left hac]
      · exact Or.inr (List.mem_cons_of_mem c h)

theorem foldlMin_cases : ∀ (l : List ℚ) (a : ℚ), foldlMin a l = a ∨ foldlMin a l ∈ l := by
  intro l
  induction l with
  | nil => intro a; exact Or.inl rfl
  | cons c t ih =>
      intro a
      rcases ih (min a c) with h | h
      · rcases le_total a c with hac | hac
        · left
          rw [show foldlMin a (c :: t) = foldlMin (min a c) t from rfl, h,
            min_eq_left hac]
        · right
          rw [show foldlMin a (c :: t) = foldlMin (min a c) t from rfl, h,
            min_eq_right hac]
          exact List.mem_cons_self c t
      · exact Or.inr (List.mem_cons_of_mem c h)

theorem foldlMax_le_iff (a : ℚ) (l : List ℚ) (x : ℚ) :
    foldlMax a l ≤ x ↔ a ≤ x ∧ ∀ b ∈ l, b ≤ x := by
  constructor
  · intro h
    exact ⟨le_trans (le_foldlMax l a) h,
      fun b hb => le_trans (foldlMax_le_of_mem l a b hb) h⟩
  · rintro ⟨ha, hl⟩
    rcases foldlMax_cases l a with h | h
    · rw [h]; exact ha
    · exact hl _ h

theorem le_foldlMin_iff (a : ℚ) (l : List ℚ) (x : ℚ) :
    x ≤ foldlMin a l ↔ x ≤ a ∧ ∀ b ∈ l, x ≤ b := by
  constructor
  · intro h
    exact ⟨le_trans h (foldlMin_le l a),
      fun b hb => le_trans h (foldlMin_le_of_mem l a b hb)⟩
  · rintro ⟨ha, hl⟩
    rcases foldlMin_cases l a with h | h
    · rw [h]; exact ha
    · exact hl _ h

theorem attained_max (c0 : Corners) (rest : List Corners) (f : Corners → ℚ) :
    ∃ c ∈ c0 :: rest, f c = foldlMax (f c0) (rest.map f) := by
  rcases foldlMax_cases (rest.map f) (f c0) with h | h
  · exact ⟨c0, List.mem_cons_self c0 rest, h.symm⟩
  · rcases List.mem_map.mp h with ⟨c, hc, hfc⟩
    exact ⟨c, List.mem_cons_of_mem c0 hc, hfc⟩

theorem attained_min (c0 : Corners) (rest : List Corners) (f : Corners → ℚ) :
    ∃ c ∈ c0 :: rest, f c = foldlMin (f c0) (rest.map f) := by
  rcases foldlMin_cases (rest.map f) (f c0) with h | h
  · exact ⟨c0, List.mem_cons_self c0 rest, h.symm⟩
  · rcases List.mem_map.mp h with ⟨c, hc, hfc⟩
    exact ⟨c, List.mem_cons_of_mem c0 hc, hfc⟩

theorem bound_max (c0 : Corners) (rest : List Corners) (f : Corners → ℚ) :
    ∀ c ∈ c0 :: rest, f c ≤ foldlMax (f c0) (rest.map f) := by
  intro c hc
  rcases List.mem_cons.mp hc with rfl | hc
  · exact le_foldlMax (rest.map f) (f c)
  · exact foldlMax_le_of_mem (rest.map f) (f c0) (f c) (List.mem_map_of_mem f hc)

theorem bound_min (c0 : Corners) (rest : List Corners) (f : Corners → ℚ) :
    ∀ c ∈ c0 :: rest, foldlMin (f c0) (rest.map f) ≤ f c := by
  intro c hc
  rcases List.mem_cons.mp hc with rfl | hc
  · exact foldlMin_le (rest.map f) (f c)
  · exact foldlMin_le_of_mem (rest.map f) (f c0) (f c) (List.mem_map_of_mem f hc)

/-- C4: get_common_overlap computes the bounding-box intersection.  For a
nonempty file list it returns some [ulx, uly, lrx, lry] in which each value
is attained by an input and bounds all inputs on its side (ulx the maximum
upper-left x, uly the minimum upper-left y, lrx the minimum lower-right x,
lry the maximum lower-right y), and a point lies in every input bounding box
exactly when it lies in the returned rectangle (so the returned rectangle is
contained in every input box and contains every common point). -/
theorem get_common_overlap_spec (corners : List Corners) (h : corners ≠ []) :
    ∃ ulx uly lrx lry,
      get_common_overlap corners = some [ulx, uly, lrx, lry] ∧
      ((∃ c ∈ corners, c.upperLeftX = ulx) ∧ ∀ c ∈ corners, c.upperLeftX ≤ ulx) ∧
      ((∃ c ∈ corners, c.upperLeftY = uly) ∧ ∀ c ∈ corners, uly ≤ c.upperLeftY) ∧
      ((∃ c ∈ corners, c.lowerRightX = lrx) ∧ ∀ c ∈ corners, lrx ≤ c.lowerRightX) ∧
      ((∃ c ∈ corners, c.lowerRightY = lry) ∧ ∀ c ∈ corners, c.lowerRightY ≤ lry) ∧
      (∀ x y : ℚ,
        (∀ c ∈ corners,
          c.upperLeftX ≤ x ∧ x ≤ c.lowerRightX ∧
          c.lowerRightY ≤ y ∧ y ≤ c.upperLeftY) ↔
        (ulx ≤ x ∧ x ≤ lrx ∧ lry ≤ y ∧ y ≤ uly)) := by
  match corners with
  | [] => exact absurd rfl h
  | c0 :: rest =>
    refine ⟨foldlMax c0.upperLeftX (rest.map Corners.upperLeftX),
      foldlMin c0.upperLeftY (rest.map Corners.upperLeftY),
      foldlMin c0.lowerRightX (rest.map Corners.lowerRightX),
      foldlMax c0.lowerRightY (rest.map Corners.lowerRightY),
      rfl,
      ⟨attained_max c0 rest Corners.upperLeftX, bound_max c0 rest Corners.upperLeftX⟩,
      ⟨attained_min c0 rest Corners.upperLeftY, bound_min c0 rest Corners.upperLeftY⟩,
      ⟨attained_min c0 rest Corners.lowerRightX, bound_min c0 rest Corners.lowerRightX⟩,
      ⟨attained_max c0 rest Corners.lowerRightY, bound_max c0 rest Corners.lowerRightY⟩,
      ?_⟩
    intro x y
    constructor
    · intro hall
      refine ⟨(foldlMax_le_iff _ _ x).mpr ⟨(hall c0 (List.mem_cons_self c0 rest)).1, ?_⟩,
        (le_foldlMin_iff _ _ x).mpr ⟨(hall c0 (List.mem_cons_self c0 rest)).2.1, ?_⟩,
        (foldlMax_le_iff _ _ y).mpr ⟨(hall c0 (List.mem_cons_self c0 rest)).2.2.1, ?_⟩,
        (le_foldlMin_iff _ _ y).mpr ⟨(hall c0 (List.mem_cons_self c0 rest)).2.2.2, ?_⟩⟩
      · rintro b hb
        rcases List.mem_map.mp hb with ⟨c, hc, rfl⟩
        exact (hall c (List.mem_cons_of_mem c0 hc)).1
      · rintro b hb
        rcases List.mem_map.mp hb with ⟨c, hc, rfl⟩
        exact (hall c (List.mem_cons_of_mem c0 hc)).2.1
      · rintro b hb
        rcases List.mem_map.mp hb with ⟨c, hc, rfl⟩
        exact (hall c (List.mem_cons_of_mem c0 hc)).2.2.1
      · rintro b hb
        rcases List.mem_map.mp hb with ⟨c, hc, rfl⟩
        exact (hall c (List.mem_cons_of_mem c0 hc)).2.2.2
    · rintro ⟨h1, h2, h3, h4⟩ c hc
      exact ⟨le_trans (bound_max c0 rest Corners.upperLeftX c hc) h1,
        le_trans h2 (bound_min c0 rest Corners.lowerRightX c hc),
        le_trans (bound_max c0 rest Corners.lowerRightY c hc) h3,
        le_trans h4 (bound_min c0 rest Corners.upperLeftY c hc)⟩

/-- Two overlapping rasters used as a concrete input. -/
def demo_corners : List Corners :=
  [⟨0, 10, 10, 0⟩, ⟨2, 8, 12, 1⟩]

/-- Witness for C4 at two concrete rasters. -/
theorem get_common_overlap_spec_witness :
    ∃ ulx uly lrx lry,
      get_common_overlap demo_corners = some [ulx, uly, lrx, lry] ∧
      ((∃ c ∈ demo_corners, c.upperLeftX = ulx) ∧
        ∀ c ∈ demo_corners, c.upperLeftX ≤ ulx) ∧
      ((∃ c ∈ demo_corners, c.upperLeftY = uly) ∧
        ∀ c ∈ demo_corners, uly ≤ c.upperLeftY) ∧
      ((∃ c ∈ demo_corners, c.lowerRightX = lrx) ∧
        ∀ c ∈ demo_corners, lrx ≤ c.lowerRightX) ∧
      ((∃ c ∈ demo_corners, c.lowerRightY = lry) ∧
        ∀ c ∈ demo_corners, c.lowerRightY ≤ lry) ∧
      (∀ x y : ℚ,
        (∀ c ∈ demo_corners,
          c.upperLeftX ≤ x ∧ x ≤ c.lowerRightX ∧
          c.lowerRightY ≤ y ∧ y ≤ c.upperLeftY) ↔
        (ulx ≤ x ∧ x ≤ lrx ∧ lry ≤ y ∧ y ≤ uly)) :=
  get_common_overlap_spec demo_corners (List.cons_ne_nil _ _)

/-- C8: get_common_overlap is only total on nonempty input.  On the empty
file list the max over an empty sequence fails instead of returning a value;
on every nonempty list it returns a 4-element coordinate list. -/
theorem get_common_overlap_total (corners : List Corners) :
    (corners = [] → get_common_overlap corners = none) ∧
    (corners ≠ [] → ∃ r, get_common_overlap corners = some r ∧ r.length = 4) := by
  constructor
  · rintro rfl
    rfl
  · intro h
    match corners with
    | [] => exact absurd rfl h
    | c :: rest => exact ⟨_, rfl, rfl⟩

/-- Witness for C8: the empty list fails, the demo list yields 4 coordinates. -/
theorem get_common_overlap_total_witness :
    get_common_overlap [] = none ∧
    ∃ r, get_common_overlap demo_corners = some r ∧ r.length = 4 :=
  ⟨(get_common_overlap_total []).1 rfl,
    (get_common_overlap_total demo_corners).2 (List.cons_ne_nil _ _)⟩

/-- Results of a catalog search or baseline-stack call: whether the external
service reported the result set complete, and the returned scene records. -/
structure SearchResults where
  searchComplete : Bool
  results : List Scene
  deriving DecidableEq

/-- Modelled from the spec: the external search library's raise_if_incomplete
raises an error when the service reported the search results incomplete and
otherwise returns without effect ("raise if search results incomplete"); the
library implementing it is outside this repository. -/
def raise_if_incomplete (r : SearchResults) : Except String Unit :=
  if r.searchComplete then Except.ok () else Except.error "incomplete results"

/-- The search step of the job-submission notebook: call raise_if_incomplete
on the search results — an uncaught exception propagates — then keep the
granules whose scene name is not among the previously processed ones. -/
def find_unprocessed_granules (search_results : SearchResults)
    (processed_granules : List String) : Except String (List Scene) :=
  match raise_if_incomplete search_results with
  | Except.error e => Except.error e
  | Except.ok _ => Except.ok (search_results.results.filter
      (fun result => !(processed_granules.contains result.sceneName)))

/-- The Python slice l[-depth:], which takes the last depth elements when
depth is positive but the whole list when depth = 0, since -0 is 0. -/
def pySliceLast {α : Type} (l : List α) (depth : Nat) : List α :=
  if depth = 0 then l else l.drop (l.length - depth)

/-- The Python startswith test on strings: the first string begins with the
second, as a prefix test on the character sequences. -/
def strStartsWith (s p : String) : Bool :=
  p.data.isPrefixOf s.data

/-- get_neighbors: build the baseline stack of a granule (the stack query
itself runs in the external library; the embedding takes its results),
raise if incomplete — an uncaught exception propagates — keep the items
acquired before the reference (strictly negative temporal baseline) whose
scene name starts with the platform, and return the scene names of the
last depth of them. -/
def get_neighbors (stack : SearchResults) (platform : String) (depth : Nat) :
    Except String (List String) :=
  match raise_if_incomplete stack with
  | Except.error e => Except.error e
  | Except.ok _ =>
      let filtered := stack.results.filter (fun item =>
        decide (item.temporalBaseline < 0) && strStartsWith item.sceneName platform)
      Except.ok ((pySliceLast filtered depth).map Scene.sceneName)

/-- C5: error propagation without recovery.  When the external search or
baseline-stack call reports an incomplete result set, the workflow step
fails with that error immediately; on a complete result set no error is
raised and the step returns its value. -/
theorem raise_if_incomplete_propagation (r : SearchResults)
    (processed_granules : List String) (platform : String) (depth : Nat) :
    (r.searchComplete = false →
      find_unprocessed_granules r processed_granules =
        Except.error "incomplete results" ∧
      get_neighbors r platform depth = Except.error "incomplete results") ∧
    (r.searchComplete = true →
      find_unprocessed_granules r processed_granules =
        Except.ok (r.results.filter
          (fun result => !(processed_granules.contains result.sceneName))) ∧
      ∃ names, get_neighbors r platform depth = Except.ok names) := by
  constructor
  · intro h
    constructor
    · simp [find_unprocessed_granules, raise_if_incomplete, h]
    · simp [get_neighbors, raise_if_incomplete, h]
  · intro h
    constructor
    · simp [find_unprocessed_granules, raise_if_incomplete, h]
    · exact ⟨(pySliceLast (r.results.filter (fun item =>
        decide (item.temporalBaseline < 0) &&
          strStartsWith item.sceneName platform)) depth).map Scene.sceneName,
        by simp [get_neighbors, raise_if_incomplete, h]⟩

/-- Witness for C5: an incomplete search fails, a complete one succeeds. -/
theorem raise_if_incomplete_propagation_witness :
    find_unprocessed_granules ⟨false, []⟩ [] = Except.error "incomplete results" ∧
    ∃ names, get_neighbors ⟨true, [⟨"S1X", -12⟩]⟩ "S1" 2 = Except.ok names :=
  ⟨((raise_if_incomplete_propagation ⟨false, []⟩ [] "S1" 2).1 rfl).1,
    ((raise_if_incomplete_propagation ⟨true, [⟨"S1X", -12⟩]⟩ [] "S1" 2).2 rfl).2⟩

/-- A complete baseline stack with one valid neighbor, one wrong-platform
item and one later acquisition. -/
def demo_baseline_stack : SearchResults :=
  ⟨true, [⟨"S1X", -12⟩, ⟨"S2Y", -3⟩, ⟨"S1Z", 4⟩]⟩

/-- A complete baseline stack with two valid neighbors. -/
def cex_baseline_stack : SearchResults :=
  ⟨true, [⟨"S1X", -12⟩, ⟨"S1Y", -5⟩]⟩

/-- C10 counterexample: at depth = 0 the Python slice stack[-0:] is
stack[0:], the whole filtered list, so get_neighbors returns 2 scene names
where the claim allows at most 0. -/
theorem get_neighbors_depth_zero_cex :
    get_neighbors cex_baseline_stack "S1" 0 = Except.ok ["S1X", "S1Y"] ∧
    ¬ (∀ names, get_neighbors cex_baseline_stack "S1" 0 = Except.ok names →
        names.length ≤ 0) := by
  constructor
  · rfl
  · intro hclaim
    have h2 := hclaim ["S1X", "S1Y"] rfl
    simp at h2

/-- C10 (amended): for every strictly positive depth, get_neighbors returns
at most depth scene names, and every returned name comes from a stack item
with strictly negative temporal baseline whose scene name starts with the
platform prefix. -/
theorem get_neighbors_post (stack : SearchResults) (platform : String)
    (depth : Nat) (hd : 0 < depth) (names : List String)
    (h : get_neighbors stack platform depth = Except.ok names) :
    names.length ≤ depth ∧
    ∀ name ∈ names, ∃ item ∈ stack.results,
      item.sceneName = name ∧ item.temporalBaseline < 0 ∧
      strStartsWith item.sceneName platform = true := by
  have hdz : depth ≠ 0 := Nat.pos_iff_ne_zero.mp hd
  cases hc : stack.searchComplete with
  | false => simp [get_neighbors, raise_if_incomplete, hc] at h
  | true =>
      simp only [get_neighbors, raise_if_incomplete, hc, if_true,
        Except.ok.injEq] at h
      subst h
      constructor
      · rw [List.length_map]
        unfold pySliceLast
        rw [if_neg hdz, List.length_drop]
        omega
      · intro name hname
        rcases List.mem_map.mp hname with ⟨item, hitem, rfl⟩
        have hsub : item ∈ stack.results.filter (fun item =>
            decide (item.temporalBaseline < 0) &&
              strStartsWith item.sceneName platform) := by
          unfold pySliceLast at hitem
          rw [if_neg hdz] at hitem
          exact List.mem_of_mem_drop hitem
        rcases List.mem_filter.mp hsub with ⟨hmem, hcond⟩
        simp only [Bool.and_eq_true, decide_eq_true_eq] at hcond
        exact ⟨item, hmem, rfl, hcond.1, hcond.2⟩

/-- Witness for the amended C10 at a concrete stack, platform S1, depth 2. -/
theorem get_neighbors_post_witness :
    (["S1X"] : List String).length ≤ 2 ∧
    ∀ name ∈ (["S1X"] : List String), ∃ item ∈ demo_baseline_stack.results,
      item.sceneName = name ∧ item.temporalBaseline < 0 ∧
      strStartsWith item.sceneName "S1" = true :=
  get_neighbors_post demo_baseline_stack "S1" 2 (by decide) ["S1X"] rfl

/-- The Python endswith or glob-star suffix test on strings: the first
string ends with the second, as a suffix test on the character sequences. -/
def strEndsWith (s p : String) : Bool :=
  p.data.isSuffixOf s.data

/-- A product raster file under data_dir: its parent directory, its stem
(file name without the final suffix) and its suffix, as the path library
reports them. -/
structure ProductFile where
  dir : String
  stem : String
  suffix : String
  deriving DecidableEq

/-- Full file name of a product file. -/
def ProductFile.name (f : ProductFile) : String := f.stem ++ f.suffix

/-- The MintPy product extensions clipped by the notebook. -/
def files_for_mintpy : List String :=
  ["_water_mask.tif", "_corr.tif", "_conncomp.tif", "_unw_phase.tif",
   "_dem.tif", "_lv_theta.tif", "_lv_phi.tif"]

/-- One raster translation requested from the external raster library:
destination directory and file name, source directory and file name, and
the projection window (the target extent). -/
structure TranslateCall where
  dstDir : String
  dstName : String
  srcDir : String
  srcName : String
  projWin : List ℚ
  deriving DecidableEq

/-- clip_hyp3_products_to_common_overlap: for each listed extension, for
each file under data_dir whose name ends with that extension, translate
the file windowed to the common overlap, writing the result next to the
source with _clipped inserted before the suffix.  The recursive directory
walk and the translation itself run in external libraries; the embedding
takes the file records under data_dir and returns the translations
requested. -/
def clip_hyp3_products_to_common_overlap (data_dir_files : List ProductFile)
    (overlap : List ℚ) : List TranslateCall :=
  (files_for_mintpy.map (fun extension =>
    (data_dir_files.filter (fun file => strEndsWith file.name extension)).map
      (fun file =>
        { dstDir := file.dir
          dstName := file.stem ++ "_clipped" ++ file.suffix
          srcDir := file.dir
          srcName := file.name
          projWin := overlap }))).flatten

/-- C6: clipping to the common extent.  Every file under data_dir whose
name ends with one of the listed MintPy product extensions yields a
translation whose output lives in the same directory, is named with
_clipped inserted before the suffix, and is windowed to the common
overlap extent. -/
theorem clip_products_spec (data_dir_files : List ProductFile)
    (overlap : List ℚ) (file : ProductFile) (hf : file ∈ data_dir_files)
    (extension : String) (he : extension ∈ files_for_mintpy)
    (hmatch : strEndsWith file.name extension = true) :
    ∃ call ∈ clip_hyp3_products_to_common_overlap data_dir_files overlap,
      call.dstDir = file.dir ∧
      call.dstName = file.stem ++ "_clipped" ++ file.suffix ∧
      call.srcDir = file.dir ∧
      call.srcName = file.name ∧
      call.projWin = overlap := by
  refine ⟨⟨file.dir, file.stem ++ "_clipped" ++ file.suffix, file.dir,
    file.name, overlap⟩, ?_, rfl, rfl, rfl, rfl, rfl⟩
  simp only [clip_hyp3_products_to_common_overlap, List.mem_flatten, List.mem_map]
  refine ⟨_, ⟨extension, he, rfl⟩, ?_⟩
  simp only [List.mem_map, List.mem_filter]
  exact ⟨file, ⟨hf, hmatch⟩, rfl⟩

/-- A data directory holding one DEM raster in a product subdirectory. -/
def demo_files : List ProductFile :=
  [⟨"data/S1AA_pair", "S1AA_pair_dem", ".tif"⟩]

/-- Witness for C6 at a concrete DEM file and the extension _dem.tif. -/
theorem clip_products_spec_witness :
    ∃ call ∈ clip_hyp3_products_to_common_overlap demo_files [2, 8, 10, 1],
      call.dstDir = (⟨"data/S1AA_pair", "S1AA_pair_dem", ".tif"⟩ : ProductFile).dir ∧
      call.dstName = (⟨"data/S1AA_pair", "S1AA_pair_dem", ".tif"⟩ : ProductFile).stem ++
        "_clipped" ++ (⟨"data/S1AA_pair", "S1AA_pair_dem", ".tif"⟩ : ProductFile).suffix ∧
      call.srcDir = (⟨"data/S1AA_pair", "S1AA_pair_dem", ".tif"⟩ : ProductFile).dir ∧
      call.srcName = (⟨"data/S1AA_pair", "S1AA_pair_dem", ".tif"⟩ : ProductFile).name ∧
      call.projWin = [2, 8, 10, 1] :=
  clip_products_spec demo_files [2, 8, 10, 1]
    ⟨"data/S1AA_pair", "S1AA_pair_dem", ".tif"⟩ (by decide)
    "_dem.tif" (by decide) (by decide)

/-- The dataset entries of the generated MintPy configuration file: the
padded option key and the glob pattern appended to data_dir. -/
def mintpy_dataset_entries : List (String × String) :=
  [("mintpy.load.unwFile          ", "/*/*_unw_phase_clipped.tif"),
   ("mintpy.load.corFile          ", "/*/*_corr_clipped.tif"),
   ("mintpy.load.connCompFile     ", "/*/*_conncomp_clipped.tif"),
   ("mintpy.load.demFile          ", "/*/*_dem_clipped.tif"),
   ("mintpy.load.incAngleFile     ", "/*/*_lv_theta_clipped.tif"),
   ("mintpy.load.azAngleFile      ", "/*/*_lv_phi_clipped.tif"),
   ("mintpy.load.waterMaskFile    ", "/*/*_water_mask_clipped.tif")]

/-- One dataset line of the configuration file: padded key, equals sign,
data_dir and the glob pattern. -/
def mintpy_config_line (data_dir : String) (e : String × String) : String :=
  e.1 ++ "= " ++ data_dir ++ e.2 ++ "\n"

/-- The full text written to mintpy_config.txt for a given data_dir, as
the notebook's f-string produces it. -/
def mintpy_config_text (data_dir : String) : String :=
  "\nmintpy.load.processor        = hyp3\n" ++
  "##---------interferogram datasets:\n" ++
  String.join ((mintpy_dataset_entries.take 3).map (mintpy_config_line data_dir)) ++
  "##---------geometry datasets:\n" ++
  String.join ((mintpy_dataset_entries.drop 3).map (mintpy_config_line data_dir)) ++
  "mintpy.troposphericDelay.method = no\n" ++
  "##---------misc:\n" ++
  "mintpy.plot = no\n" ++
  "mintpy.network.coherenceBased = no\n"

set_option maxRecDepth 8192 in
/-- Fidelity anchor: the generated text at the directory name data is the
exact configuration file of the notebook. -/
theorem mintpy_config_text_concrete :
    mintpy_config_text "data" =
    "\nmintpy.load.processor        = hyp3\n##---------interferogram datasets:\nmintpy.load.unwFile          = data/*/*_unw_phase_clipped.tif\nmintpy.load.corFile          = data/*/*_corr_clipped.tif\nmintpy.load.connCompFile     = data/*/*_conncomp_clipped.tif\n##---------geometry datasets:\nmintpy.load.demFile          = data/*/*_dem_clipped.tif\nmintpy.load.incAngleFile     = data/*/*_lv_theta_clipped.tif\nmintpy.load.azAngleFile      = data/*/*_lv_phi_clipped.tif\nmintpy.load.waterMaskFile    = data/*/*_water_mask_clipped.tif\nmintpy.troposphericDelay.method = no\n##---------misc:\nmintpy.plot = no\nmintpy.network.coherenceBased = no\n" := rfl

/-- C7: the configuration file references only clipped rasters.  Every
dataset entry's file pattern lies under data_dir (it extends data_dir with
a subdirectory glob), ends in _clipped.tif, and ends in none of the
unclipped product extensions. -/
theorem mintpy_config_clipped_only :
    ∀ e ∈ mintpy_dataset_entries,
      strStartsWith e.2 "/" = true ∧
      strEndsWith e.2 "_clipped.tif" = true ∧
      ∀ extension ∈ files_for_mintpy, strEndsWith e.2 extension = false := by
  decide

/-- Witness for C7 at the unwrapped-phase entry and the unclipped
unwrapped-phase extension. -/
theorem mintpy_config_clipped_only_witness :
    strStartsWith ("/*/*_unw_phase_clipped.tif" : String) "/" = true ∧
    strEndsWith ("/*/*_unw_phase_clipped.tif" : String) "_clipped.tif" = true ∧
    ∀ extension ∈ files_for_mintpy,
      strEndsWith ("/*/*_unw_phase_clipped.tif" : String) extension = false :=
  mintpy_config_clipped_only
    ("mintpy.load.unwFile          ", "/*/*_unw_phase_clipped.tif") (by decide)
